import Mathlib

/-!
Verification of the koyomi-bot season-resolution core (`src/main.py`).

The program maps a solar ecliptic longitude to one of 24 solar terms
(sekki) and one of 3 micro-seasons (ko) within the active term, formats a
notification message, and posts it to a webhook.  This file gives a shallow
embedding of the relevant functions over `ℚ` (Python floats become exact
rationals; Python `int()` truncation, negative list indexing and the
division-by-zero / index-out-of-range exceptions are modelled explicitly)
and proves the specified properties.
-/

/-- A micro-season record (`ko` entry of `sekki.json`): name, reading, emoji. -/
structure Ko where
  name : String
  reading : String
  emoji : String
  deriving DecidableEq, Repr

/-- A solar-term record (`sekki` entry): name, reading, start longitude
(degrees), and its list of micro-seasons. -/
structure Sekki where
  name : String
  reading : String
  longitude : ℚ
  ko : List Ko
  deriving DecidableEq, Repr

/-- The parsed data table: the value of the `"sekki"` key of `sekki.json`. -/
structure SekkiData where
  sekki : List Sekki
  deriving DecidableEq, Repr

/-- Python `int()` applied to a float: truncation toward zero. -/
def pyInt (q : ℚ) : ℤ :=
  if 0 ≤ q then ⌊q⌋ else ⌈q⌉

/-- Python list subscription `xs[i]` with an `int` index: nonnegative indices
count from the front, indices in `[-len, -1]` count from the back, and
anything else raises `IndexError` (modelled as `none`). -/
def pyGet {α : Type} (xs : List α) (i : ℤ) : Option α :=
  if 0 ≤ i then xs[i.toNat]?
  else if 0 ≤ (xs.length : ℤ) + i then xs[((xs.length : ℤ) + i).toNat]?
  else none

/-- The term span computed in `_find_ko_in_sekki` (src/main.py:74-82):
`(360 - sekki_lon) + next_sekki_lon` in the wrap case, else
`next_sekki_lon - sekki_lon`. -/
def spanIn (sekki_lon next_sekki_lon : ℚ) : ℚ :=
  if sekki_lon > next_sekki_lon then (360 - sekki_lon) + next_sekki_lon
  else next_sekki_lon - sekki_lon

/-- The offset computed in `_find_ko_in_sekki` (src/main.py:74-83): distance
of `longitude` from the term start, going forward through 360→0 in the wrap
case when `longitude < sekki_lon`. -/
def offsetIn (longitude sekki_lon next_sekki_lon : ℚ) : ℚ :=
  if sekki_lon > next_sekki_lon then
    if longitude ≥ sekki_lon then longitude - sekki_lon
    else (360 - sekki_lon) + longitude
  else longitude - sekki_lon

/-- Function `_find_ko_in_sekki` (src/main.py:70-89): split the active term in three
equal parts and pick the micro-season.  `none` models a raised exception
(`ZeroDivisionError` when the span is zero, `IndexError` when the computed
index falls outside Python's valid range for the 3-element `ko` list). -/
def _find_ko_in_sekki (longitude : ℚ) (sekki : Sekki) (next_sekki_lon : ℚ) :
    Option (Sekki × Ko × ℤ) :=
  let span := spanIn sekki.longitude next_sekki_lon
  let offset := offsetIn longitude sekki.longitude next_sekki_lon
  let ko_span := span / 3
  if ko_span = 0 then none
  else
    let ko_index := min (pyInt (offset / ko_span)) 2
    match pyGet sekki.ko ko_index with
    | some k => some (sekki, k, ko_index)
    | none => none

/-- The `for i, sekki in enumerate(sekki_list)` loop of `find_current_ko`
(src/main.py:52-67).  `l` is the full list (used for the `sekki_list[(i+1)%24]`
lookup), the third argument is the not-yet-visited tail, `i` the loop counter.
When the loop falls through, the fallback `sekki_list[0], sekki_list[0]["ko"][0], 0`
of line 67 is returned.  `none` models a raised exception. -/
def find_current_ko_go (longitude : ℚ) (l : List Sekki) :
    List Sekki → ℕ → Option (Sekki × Ko × ℤ)
  | [], _ =>
    match l[0]? with
    | some s0 =>
      match pyGet s0.ko 0 with
      | some k0 => some (s0, k0, 0)
      | none => none
    | none => none
  | sekki :: rest, i =>
    match l[((i + 1) % 24)]? with
    | none => none
    | some next_sekki =>
      if sekki.longitude > next_sekki.longitude then
        if longitude ≥ sekki.longitude ∨ longitude < next_sekki.longitude then
          _find_ko_in_sekki longitude sekki next_sekki.longitude
        else find_current_ko_go longitude l rest (i + 1)
      else
        if sekki.longitude ≤ longitude ∧ longitude < next_sekki.longitude then
          _find_ko_in_sekki longitude sekki next_sekki.longitude
        else find_current_ko_go longitude l rest (i + 1)

/-- Function `find_current_ko` (src/main.py:42-67). -/
def find_current_ko (longitude : ℚ) (data : SekkiData) : Option (Sekki × Ko × ℤ) :=
  find_current_ko_go longitude data.sekki data.sekki 0

/-- Function `load_sekki_data` (src/main.py:16-20): opens `data/sekki.json` and returns
`json.load(f)` unchanged.  The file read and JSON parse are abstracted as the
`raw` argument (`none` models a raised `FileNotFoundError`/`JSONDecodeError`);
on a successful parse the data is returned as-is — the source performs no
structural validation whatsoever. -/
def load_sekki_data (raw : Option SekkiData) : Option SekkiData :=
  raw

/-- The start longitude of term `i` of table `l`, following the source's
cyclic indexing `sekki_list[(i+1) % 24]` (24 is the literal in the code). -/
def startLon (l : List Sekki) (i : ℕ) : ℚ :=
  match l[(i % 24)]? with
  | some s => s.longitude
  | none => 0

/-- The per-term range test of the resolver loop (src/main.py:57-64): wrap
case `longitude >= lon or longitude < nextLon` when `lon > nextLon`, else
`lon <= longitude < nextLon`. -/
def matchCond (longitude : ℚ) (l : List Sekki) (i : ℕ) : Prop :=
  if startLon l i > startLon l (i + 1) then
    longitude ≥ startLon l i ∨ longitude < startLon l (i + 1)
  else
    startLon l i ≤ longitude ∧ longitude < startLon l (i + 1)

instance (L : ℚ) (l : List Sekki) (i : ℕ) : Decidable (matchCond L l i) := by
  unfold matchCond
  exact instDecidableIte

/-- The wraparound invariant of the table (spec §3): position `w` is the one
adjacent pair where the start longitude decreases; every other adjacent pair
is nondecreasing. -/
def descentAt (l : List Sekki) (w : ℕ) : Prop :=
  w < 24 ∧ startLon l w > startLon l (w + 1) ∧
    ∀ i < 24, i ≠ w → startLon l i ≤ startLon l (i + 1)

instance (l : List Sekki) (w : ℕ) : Decidable (descentAt l w) := by
  unfold descentAt
  infer_instance

/-- Well-formed table (spec §3): exactly 24 terms, each with exactly 3
micro-seasons, start longitudes in `[0, 360)`, and exactly one wraparound
pair in the cyclic order. -/
def WellFormed (data : SekkiData) : Prop :=
  data.sekki.length = 24 ∧
  (∀ s ∈ data.sekki, s.ko.length = 3) ∧
  (∀ i < 24, 0 ≤ startLon data.sekki i ∧ startLon data.sekki i < 360) ∧
  ∃ w, descentAt data.sekki w

instance (data : SekkiData) : Decidable (WellFormed data) := by
  unfold WellFormed
  haveI hb : Decidable (∃ w, w < 24 ∧ descentAt data.sekki w) :=
    Nat.decidableExistsLT 24
  haveI h : Decidable (∃ w, descentAt data.sekki w) :=
    decidable_of_iff (∃ w, w < 24 ∧ descentAt data.sekki w)
      (by
        constructor
        · rintro ⟨w, _, hw⟩
          exact ⟨w, hw⟩
        · rintro ⟨w, hw⟩
          exact ⟨w, hw.1, hw⟩)
  infer_instance

/-- Spec §3 additionally requires the 24 terms to partition the circle, so no
term is empty: consecutive start longitudes are distinct. -/
def NoEmptyTerm (data : SekkiData) : Prop :=
  ∀ i < 24, startLon data.sekki i ≠ startLon data.sekki (i + 1)

instance (data : SekkiData) : Decidable (NoEmptyTerm data) := by
  unfold NoEmptyTerm
  infer_instance

/-- The canonical start longitudes: 立春 at 315, wrapping 345 → 0. -/
def canonicalStarts : List ℚ :=
  [315, 330, 345, 0, 15, 30, 45, 60, 75, 90, 105, 120,
   135, 150, 165, 180, 195, 210, 225, 240, 255, 270, 285, 300]

/-- A concrete micro-season used to build test tables. -/
def mkKo (j : ℕ) : Ko :=
  { name := if j = 0 then "shoko" else if j = 1 then "jiko" else "makko"
    reading := "yomi"
    emoji := "🌱" }

/-- A concrete term with the given start longitude and 3 micro-seasons. -/
def mkSekkiAt (lon : ℚ) : Sekki :=
  { name := "sekki"
    reading := "yomi"
    longitude := lon
    ko := [mkKo 0, mkKo 1, mkKo 2] }

/-- A concrete well-formed 24-term table with the canonical start longitudes
(立春 at 315; the single wraparound pair is 345 → 0 at position 2). -/
def canonicalTable : SekkiData :=
  ⟨canonicalStarts.map mkSekkiAt⟩

/-- Python float modulo `a % b` for `b > 0`: `a - b * ⌊a / b⌋`
(the result takes the divisor's sign). -/
def pymod (a b : ℚ) : ℚ :=
  a - b * ⌊a / b⌋

/-- A calendar date, as used by `format_message` via `strftime("%Y/%m/%d")`. -/
structure PyDate where
  year : ℕ
  month : ℕ
  day : ℕ
  deriving DecidableEq, Repr

/-- Zero-pad to 2 digits, as `%m` / `%d` do. -/
def pad2 (n : ℕ) : String :=
  if n < 10 then "0" ++ toString n else toString n

/-- Zero-pad to 4 digits, as `%Y` does. -/
def pad4 (n : ℕ) : String :=
  if n < 10 then "000" ++ toString n
  else if n < 100 then "00" ++ toString n
  else if n < 1000 then "0" ++ toString n
  else toString n

/-- Rendering of `date.strftime("%Y/%m/%d")` from src/main.py:94. -/
def strftime_ymd (d : PyDate) : String :=
  pad4 d.year ++ "/" ++ pad2 d.month ++ "/" ++ pad2 d.day

/-- The positional phase labels of src/main.py:95 (`["初候", "次候", "末候"]`,
i.e. first / middle / last). -/
def ko_names : List String :=
  ["初候", "次候", "末候"]

/-- Function `format_message` (src/main.py:92-97).  The f-string is reproduced as
string concatenation; `ko_names[ko_index]` uses Python list indexing, so an
index outside the valid range raises (`none`). -/
def format_message (date : PyDate) (sekki : Sekki) (ko : Ko) (ko_index : ℤ) :
    Option String :=
  let date_str := strftime_ymd date
  match pyGet ko_names ko_index with
  | none => none
  | some lbl =>
    some ("*" ++ date_str ++ " dev-daily* " ++ ko.emoji ++ "\n> " ++ sekki.name ++
      "・" ++ lbl ++ "「" ++ ko.name ++ "」（" ++ ko.reading ++ "）")

/-- String `s` occurs verbatim as a substring of `t`. -/
def isSubstr (s t : String) : Prop :=
  ∃ a b : String, t = a ++ s ++ b

/-- Outcome of the `requests.post` call in `post_to_slack`: either an HTTP
response with a status code, or a raised exception. -/
inductive PostOutcome where
  | response (status_code : ℤ)
  | exception (message : String)
  deriving DecidableEq, Repr

/-- Function `post_to_slack` (src/main.py:104-119): returns
`response.status_code == 200`; any exception from the HTTP call is caught,
reported, and converted to `False`. -/
def post_to_slack (outcome : PostOutcome) : Bool :=
  match outcome with
  | .response code => code == 200
  | .exception _ => false

/-- A malformed 24-term table in which every term starts at longitude 0, so
no term's range condition can hold for any longitude. -/
def degenerateTable : SekkiData :=
  ⟨List.replicate 24 (mkSekkiAt 0)⟩

/-- A structurally invalid table with only 23 terms. -/
def shortTable : SekkiData :=
  ⟨(canonicalStarts.take 23).map mkSekkiAt⟩

/-- A term carrying only 2 micro-seasons instead of 3. -/
def badKoSekki : Sekki :=
  { name := "sekki"
    reading := "yomi"
    longitude := 315
    ko := [mkKo 0, mkKo 1] }

/-- A 24-term table whose first term has only 2 micro-seasons. -/
def badKoTable : SekkiData :=
  ⟨badKoSekki :: (canonicalStarts.drop 1).map mkSekkiAt⟩

/-- Truncation `pyInt` is the identity on integers. -/
theorem pyInt_intCast (z : ℤ) : pyInt (z : ℚ) = z := by
  unfold pyInt
  split
  · exact Int.floor_intCast z
  · exact Int.ceil_intCast z


/-! ### Structural lemmas about the resolver -/

theorem startLon_congr (l : List Sekki) {i j : ℕ} (h : i % 24 = j % 24) :
    startLon l i = startLon l j := by
  unfold startLon
  rw [h]

theorem matchCond_congr (L : ℚ) (l : List Sekki) {i j : ℕ} (h : i % 24 = j % 24) :
    matchCond L l i ↔ matchCond L l j := by
  unfold matchCond
  rw [startLon_congr l h, startLon_congr l (show (i + 1) % 24 = (j + 1) % 24 by omega)]

theorem descent_step (l : List Sekki) {w : ℕ} (hd : descentAt l w) {i : ℕ}
    (h : i % 24 ≠ w) : startLon l i ≤ startLon l (i + 1) := by
  have h24 : i % 24 < 24 := Nat.mod_lt _ (by norm_num)
  have h1 := hd.2.2 (i % 24) h24 h
  calc startLon l i = startLon l (i % 24) := startLon_congr l (by omega)
    _ ≤ startLon l (i % 24 + 1) := h1
    _ = startLon l (i + 1) := startLon_congr l (by omega)

theorem t_mono (l : List Sekki) {w : ℕ} (hd : descentAt l w) {j k : ℕ}
    (hjk : j ≤ k) (hk : k ≤ 23) :
    startLon l (w + 1 + j) ≤ startLon l (w + 1 + k) := by
  have hw := hd.1
  induction k with
  | zero =>
    have hj0 : j = 0 := by omega
    subst hj0
    exact le_refl _
  | succ n ih =>
    by_cases hj : j = n + 1
    · subst hj
      exact le_refl _
    · have hjn : j ≤ n := by omega
      have hstep : startLon l (w + 1 + n) ≤ startLon l (w + 1 + n + 1) :=
        descent_step l hd (by omega)
      exact le_trans (ih hjn (by omega)) hstep

theorem t_last (l : List Sekki) (w : ℕ) :
    startLon l (w + 1 + 23) = startLon l w :=
  startLon_congr l (by omega)

theorem matchCond_rot (L : ℚ) (l : List Sekki) {w : ℕ} (hd : descentAt l w)
    {j : ℕ} (hj : j < 23) :
    matchCond L l (w + 1 + j) ↔
      (startLon l (w + 1 + j) ≤ L ∧ L < startLon l (w + 1 + j + 1)) := by
  have hw := hd.1
  unfold matchCond
  rw [if_neg (not_lt.mpr (descent_step l hd (by omega)))]

theorem matchCond_at_w (L : ℚ) (l : List Sekki) {w : ℕ} (hd : descentAt l w) :
    matchCond L l w ↔ (L ≥ startLon l w ∨ L < startLon l (w + 1)) := by
  unfold matchCond
  rw [if_pos hd.2.1]

theorem exists_slot_between (L : ℚ) (l : List Sekki) {w : ℕ} (hd : descentAt l w) :
    ∀ b, b ≤ 23 → startLon l (w + 1) ≤ L → L < startLon l (w + 1 + b) →
      ∃ j, j < b ∧ startLon l (w + 1 + j) ≤ L ∧ L < startLon l (w + 1 + j + 1) := by
  intro b
  induction b with
  | zero =>
    intro _ h0 hb
    exact absurd hb (not_lt.mpr h0)
  | succ n ih =>
    intro hn h0 hb
    by_cases hlt : L < startLon l (w + 1 + n)
    · obtain ⟨j, hj, hle2, hlt2⟩ := ih (by omega) h0 hlt
      exact ⟨j, by omega, hle2, hlt2⟩
    · exact ⟨n, by omega, not_lt.mp hlt, hb⟩

theorem exists_match (L : ℚ) (l : List Sekki) {w : ℕ} (hd : descentAt l w) :
    ∃ i, i < 24 ∧ matchCond L l i := by
  by_cases hc : L ≥ startLon l w ∨ L < startLon l (w + 1)
  · exact ⟨w, hd.1, (matchCond_at_w L l hd).mpr hc⟩
  · push_neg at hc
    obtain ⟨h1, h2⟩ := hc
    have hb : L < startLon l (w + 1 + 23) := by
      rw [t_last l w]
      exact h1
    obtain ⟨j, hj, hle2, hlt2⟩ := exists_slot_between L l hd 23 le_rfl h2 hb
    refine ⟨(w + 1 + j) % 24, Nat.mod_lt _ (by norm_num), ?_⟩
    rw [matchCond_congr L l (show ((w + 1 + j) % 24) % 24 = (w + 1 + j) % 24 by omega)]
    exact (matchCond_rot L l hd hj).mpr ⟨hle2, hlt2⟩

theorem rot_surj {w : ℕ} (hw : w < 24) {i : ℕ} (hi : i < 24) :
    ∃ j, j ≤ 23 ∧ (w + 1 + j) % 24 = i := by
  refine ⟨(i + 23 - w) % 24, by omega, by omega⟩

theorem unique_match (L : ℚ) (l : List Sekki) {w : ℕ} (hd : descentAt l w) :
    ∀ i j, i < 24 → j < 24 → matchCond L l i → matchCond L l j → i = j := by
  have hw := hd.1
  have key : ∀ a b, a < b → b ≤ 23 →
      matchCond L l (w + 1 + a) → matchCond L l (w + 1 + b) → False := by
    intro a b hab hb ha' hb'
    have hrota := (matchCond_rot L l hd (show a < 23 by omega)).mp ha'
    by_cases hb23 : b = 23
    · subst hb23
      have hw' : matchCond L l w :=
        (matchCond_congr L l (show (w + 1 + 23) % 24 = w % 24 by omega)).mp hb'
      rcases (matchCond_at_w L l hd).mp hw' with hge | hlt
      · have hmono : startLon l (w + 1 + (a + 1)) ≤ startLon l (w + 1 + 23) :=
          t_mono l hd (by omega) le_rfl
        simp only [← Nat.add_assoc] at hmono
        rw [t_last l w] at hmono
        have := lt_of_lt_of_le hrota.2 hmono
        exact absurd this (not_lt.mpr hge)
      · have hmono : startLon l (w + 1 + 0) ≤ startLon l (w + 1 + a) :=
          t_mono l hd (Nat.zero_le a) (by omega)
        simp only [Nat.add_zero] at hmono
        have := lt_of_le_of_lt (le_trans hmono hrota.1) hlt
        exact absurd this (lt_irrefl _)
    · have hrotb := (matchCond_rot L l hd (show b < 23 by omega)).mp hb'
      have hmono : startLon l (w + 1 + (a + 1)) ≤ startLon l (w + 1 + b) :=
        t_mono l hd (by omega) (by omega)
      simp only [← Nat.add_assoc] at hmono
      have h1 := lt_of_lt_of_le hrota.2 hmono
      exact absurd (lt_of_le_of_lt hrotb.1 h1) (lt_irrefl _)
  intro i j hi hj hmi hmj
  obtain ⟨a, ha23, hia⟩ := rot_surj hw hi
  obtain ⟨b, hb23, hjb⟩ := rot_surj hw hj
  have hmi' : matchCond L l (w + 1 + a) :=
    (matchCond_congr L l (show (w + 1 + a) % 24 = i % 24 by omega)).mpr hmi
  have hmj' : matchCond L l (w + 1 + b) :=
    (matchCond_congr L l (show (w + 1 + b) % 24 = j % 24 by omega)).mpr hmj
  rcases lt_trichotomy a b with h | h | h
  · exact (key a b h hb23 hmi' hmj').elim
  · omega
  · exact (key b a h ha23 hmj' hmi').elim

theorem startLon_get (l : List Sekki) {i : ℕ} (hi : i < 24) (hl : i < l.length) :
    startLon l i = l[i].longitude := by
  unfold startLon
  rw [Nat.mod_eq_of_lt hi, List.getElem?_eq_getElem hl]

theorem startLon_get_mod (l : List Sekki) (hlen : l.length = 24) (i : ℕ) :
    startLon l i = l[i % 24].longitude := by
  unfold startLon
  rw [List.getElem?_eq_getElem (show i % 24 < l.length by omega)]

theorem go_cons (L : ℚ) (l : List Sekki) (s : Sekki) (rest : List Sekki) (j : ℕ)
    {nx : Sekki} (hnext : l[((j + 1) % 24)]? = some nx) :
    find_current_ko_go L l (s :: rest) j =
      if s.longitude > nx.longitude then
        if L ≥ s.longitude ∨ L < nx.longitude then _find_ko_in_sekki L s nx.longitude
        else find_current_ko_go L l rest (j + 1)
      else
        if s.longitude ≤ L ∧ L < nx.longitude then _find_ko_in_sekki L s nx.longitude
        else find_current_ko_go L l rest (j + 1) := by
  simp only [find_current_ko_go, hnext]

theorem go_step (L : ℚ) (l : List Sekki) (hlen : l.length = 24) (j : ℕ) (hj : j < 24) :
    find_current_ko_go L l (l.drop j) j =
      if matchCond L l j then
        _find_ko_in_sekki L l[j] (startLon l (j + 1))
      else find_current_ko_go L l (l.drop (j + 1)) (j + 1) := by
  have hjl : j < l.length := by omega
  have hnlt : (j + 1) % 24 < l.length := by omega
  rw [List.drop_eq_getElem_cons hjl,
    go_cons L l _ _ j (List.getElem?_eq_getElem hnlt)]
  have e1 : l[j].longitude = startLon l j := (startLon_get l hj hjl).symm
  have e2 : l[(j + 1) % 24].longitude = startLon l (j + 1) :=
    (startLon_get_mod l hlen (j + 1)).symm
  rw [e1, e2]
  unfold matchCond
  by_cases h1 : startLon l j > startLon l (j + 1)
  · simp only [if_pos h1]
  · simp only [if_neg h1]

theorem go_from_match (L : ℚ) (l : List Sekki) (hlen : l.length = 24) {i : ℕ}
    (hi : i < 24) (hm : matchCond L l i)
    (hfirst : ∀ k, k < i → ¬ matchCond L l k) :
    ∀ d j, j + d = i →
      find_current_ko_go L l (l.drop j) j =
        _find_ko_in_sekki L l[i] (startLon l (i + 1)) := by
  intro d
  induction d with
  | zero =>
    intro j hj
    have hji : j = i := by omega
    subst hji
    rw [go_step L l hlen j (by omega), if_pos hm]
  | succ n ih =>
    intro j hj
    have hjlt : j < i := by omega
    rw [go_step L l hlen j (by omega), if_neg (hfirst j hjlt)]
    exact ih (j + 1) (by omega)

theorem find_current_ko_eq (L : ℚ) (data : SekkiData)
    (hlen : data.sekki.length = 24) {i : ℕ} (hi : i < 24)
    (hm : matchCond L data.sekki i)
    (hfirst : ∀ k, k < i → ¬ matchCond L data.sekki k) :
    find_current_ko L data =
      _find_ko_in_sekki L data.sekki[i]
        (startLon data.sekki (i + 1)) := by
  unfold find_current_ko
  have h := go_from_match L data.sekki hlen hi hm hfirst i 0 (by omega)
  rwa [List.drop_zero] at h

theorem pyInt_of_nonneg {q : ℚ} (h : 0 ≤ q) : pyInt q = ⌊q⌋ := by
  unfold pyInt
  rw [if_pos h]

theorem find_ko_in_sekki_some (L : ℚ) (s : Sekki) (nextLon : ℚ)
    (hko : s.ko.length = 3)
    (hspan : 0 < spanIn s.longitude nextLon)
    (hoff : 0 ≤ offsetIn L s.longitude nextLon) :
    ∃ k, _find_ko_in_sekki L s nextLon =
        some (s, k,
          min (⌊offsetIn L s.longitude nextLon / (spanIn s.longitude nextLon / 3)⌋) 2) ∧
      s.ko[(min (⌊offsetIn L s.longitude nextLon / (spanIn s.longitude nextLon / 3)⌋) 2).toNat]?
        = some k ∧
      0 ≤ min (⌊offsetIn L s.longitude nextLon / (spanIn s.longitude nextLon / 3)⌋) 2 ∧
      min (⌊offsetIn L s.longitude nextLon / (spanIn s.longitude nextLon / 3)⌋) 2 ≤ 2 := by
  have hks : 0 < spanIn s.longitude nextLon / 3 := by positivity
  have hq : 0 ≤ offsetIn L s.longitude nextLon / (spanIn s.longitude nextLon / 3) :=
    div_nonneg hoff hks.le
  have hfl : 0 ≤ ⌊offsetIn L s.longitude nextLon / (spanIn s.longitude nextLon / 3)⌋ :=
    Int.floor_nonneg.mpr hq
  set idx := min (⌊offsetIn L s.longitude nextLon / (spanIn s.longitude nextLon / 3)⌋) 2 with hidx
  have hidx0 : 0 ≤ idx := le_min hfl (by norm_num)
  have hidx2 : idx ≤ 2 := min_le_right _ _
  have hnat : idx.toNat < s.ko.length := by
    rw [hko]
    omega
  refine ⟨s.ko[idx.toNat], ?_, List.getElem?_eq_getElem hnat, hidx0, hidx2⟩
  unfold _find_ko_in_sekki
  rw [if_neg (show ¬ (spanIn s.longitude nextLon / 3 = 0) from ne_of_gt hks)]
  rw [pyInt_of_nonneg hq, ← hidx]
  simp only [pyGet, if_pos hidx0, List.getElem?_eq_getElem hnat]

theorem matched_span_pos (l : List Sekki)
    (hbnd : ∀ i < 24, 0 ≤ startLon l i ∧ startLon l i < 360)
    {i : ℕ} (hi : i < 24) {L : ℚ} (hm : matchCond L l i) :
    0 < spanIn (startLon l i) (startLon l (i + 1)) := by
  unfold matchCond at hm
  unfold spanIn
  by_cases hgt : startLon l i > startLon l (i + 1)
  · rw [if_pos hgt]
    have h1 := (hbnd i hi).2
    have h2 := (hbnd ((i + 1) % 24) (Nat.mod_lt _ (by norm_num))).1
    rw [startLon_congr l (show (i + 1) % 24 % 24 = (i + 1) % 24 by omega)] at h2
    linarith
  · rw [if_neg hgt]
    rw [if_neg hgt] at hm
    linarith [hm.1, hm.2]

theorem matched_offset_nonneg (l : List Sekki)
    (hbnd : ∀ i < 24, 0 ≤ startLon l i ∧ startLon l i < 360)
    {i : ℕ} (hi : i < 24) {L : ℚ} (hL : 0 ≤ L) (hm : matchCond L l i) :
    0 ≤ offsetIn L (startLon l i) (startLon l (i + 1)) := by
  unfold matchCond at hm
  unfold offsetIn
  by_cases hgt : startLon l i > startLon l (i + 1)
  · rw [if_pos hgt]
    by_cases hge : L ≥ startLon l i
    · rw [if_pos hge]
      linarith
    · rw [if_neg hge]
      have h1 := (hbnd i hi).2
      linarith
  · rw [if_neg hgt]
    rw [if_neg hgt] at hm
    linarith [hm.1]

/-- Combined resolver behaviour: if term `i` matches, `find_current_ko`
returns term `i` together with one of its three micro-seasons at a clamped
index computed from the offset. -/
theorem find_current_ko_resolves (data : SekkiData) (L : ℚ)
    (hwf : WellFormed data) (hL : 0 ≤ L) {i : ℕ} (hi : i < 24)
    (hm : matchCond L data.sekki i) :
    ∃ s k idx, data.sekki[i]? = some s ∧
      find_current_ko L data = some (s, k, idx) ∧
      s.ko[idx.toNat]? = some k ∧ 0 ≤ idx ∧ idx ≤ 2 ∧
      idx = min (⌊offsetIn L (startLon data.sekki i) (startLon data.sekki (i + 1)) /
        (spanIn (startLon data.sekki i) (startLon data.sekki (i + 1)) / 3)⌋) 2 := by
  obtain ⟨hlen, hko3, hbnd, w, hd⟩ := hwf
  have hil : i < data.sekki.length := by omega
  have hfirst : ∀ k, k < i → ¬ matchCond L data.sekki k := by
    intro k hk hmk
    have := unique_match L data.sekki hd k i (by omega) hi hmk hm
    omega
  have heq := find_current_ko_eq L data hlen hi hm hfirst
  have hsl : startLon data.sekki i = data.sekki[i].longitude := startLon_get data.sekki hi hil
  have hko : data.sekki[i].ko.length = 3 :=
    hko3 _ (List.getElem_mem hil)
  have hspan : 0 < spanIn data.sekki[i].longitude (startLon data.sekki (i + 1)) := by
    rw [← hsl]
    exact matched_span_pos data.sekki hbnd hi hm
  have hoff : 0 ≤ offsetIn L data.sekki[i].longitude (startLon data.sekki (i + 1)) := by
    rw [← hsl]
    exact matched_offset_nonneg data.sekki hbnd hi hL hm
  obtain ⟨k, hk1, hk2, hk3, hk4⟩ :=
    find_ko_in_sekki_some L data.sekki[i] (startLon data.sekki (i + 1)) hko hspan hoff
  refine ⟨data.sekki[i], k, _, List.getElem?_eq_getElem hil, ?_, hk2, hk3, hk4, ?_⟩
  · rw [heq, hk1]
  · rw [hsl]

/-! ### Claim theorems -/

/-- C1: for every longitude in `[0,360)` and every well-formed table, exactly
one term's range condition holds, `find_current_ko` returns that term, and
the returned micro-season is one of that term's 3 micro-seasons at the
returned index. -/
theorem find_current_ko_exactly_one_term (data : SekkiData) (L : ℚ)
    (hwf : WellFormed data) (h0 : 0 ≤ L) (h1 : L < 360) :
    (∃! i : ℕ, i < 24 ∧ matchCond L data.sekki i) ∧
    ∃ i < 24, ∃ s k idx, data.sekki[i]? = some s ∧ matchCond L data.sekki i ∧
      find_current_ko L data = some (s, k, idx) ∧
      0 ≤ idx ∧ idx ≤ 2 ∧ s.ko[idx.toNat]? = some k := by
  obtain ⟨w, hd⟩ := hwf.2.2.2
  obtain ⟨i, hi, hm⟩ := exists_match L data.sekki hd
  constructor
  · refine ⟨i, ⟨hi, hm⟩, ?_⟩
    rintro j ⟨hj, hmj⟩
    exact unique_match L data.sekki hd j i hj hi hmj hm
  · obtain ⟨s, k, idx, hs, hf, hkk, hi0, hi2, _⟩ :=
      find_current_ko_resolves data L hwf h0 hi hm
    exact ⟨i, hi, s, k, idx, hs, hm, hf, hi0, hi2, hkk⟩

theorem find_current_ko_exactly_one_term_witness :
    (0 : ℚ) ≤ 100 ∧ (100 : ℚ) < 360 ∧ WellFormed canonicalTable ∧
    ((∃! i : ℕ, i < 24 ∧ matchCond 100 canonicalTable.sekki i) ∧
     ∃ i < 24, ∃ s k idx, canonicalTable.sekki[i]? = some s ∧
       matchCond 100 canonicalTable.sekki i ∧
       find_current_ko 100 canonicalTable = some (s, k, idx) ∧
       0 ≤ idx ∧ idx ≤ 2 ∧ s.ko[idx.toNat]? = some k) :=
  ⟨by decide, by decide, by decide,
   find_current_ko_exactly_one_term canonicalTable 100 (by decide) (by decide) (by decide)⟩

/-- C4: every longitude in `[startLongitude w, 360)` or `[0, startLongitude
(w+1))` resolves to the wrapping term `w`, with nonnegative offset. -/
theorem find_current_ko_wraparound (data : SekkiData) (L : ℚ) (w : ℕ)
    (hwf : WellFormed data) (hw : w < 24)
    (hdesc : startLon data.sekki w > startLon data.sekki (w + 1))
    (hL : (startLon data.sekki w ≤ L ∧ L < 360) ∨
          (0 ≤ L ∧ L < startLon data.sekki (w + 1))) :
    ∃ s k idx, data.sekki[w]? = some s ∧
      find_current_ko L data = some (s, k, idx) ∧ s.ko[idx.toNat]? = some k ∧
      0 ≤ offsetIn L (startLon data.sekki w) (startLon data.sekki (w + 1)) := by
  obtain ⟨w', hd'⟩ := hwf.2.2.2
  have hww : w = w' := by
    by_contra hne
    exact absurd (hd'.2.2 w hw hne) (not_le.mpr hdesc)
  subst hww
  have hbnd := hwf.2.2.1
  have h0 : 0 ≤ L := by
    rcases hL with ⟨hl, _⟩ | ⟨hl, _⟩
    · exact le_trans (hbnd w hw).1 hl
    · exact hl
  have hm : matchCond L data.sekki w := by
    rw [matchCond_at_w L data.sekki hd']
    rcases hL with ⟨hl, _⟩ | ⟨_, hr⟩
    · exact Or.inl hl
    · exact Or.inr hr
  obtain ⟨s, k, idx, hs, hf, hkk, _, _, _⟩ :=
    find_current_ko_resolves data L hwf h0 hw hm
  exact ⟨s, k, idx, hs, hf, hkk, matched_offset_nonneg data.sekki hbnd hw h0 hm⟩

theorem find_current_ko_wraparound_witness :
    WellFormed canonicalTable ∧ (2 : ℕ) < 24 ∧
    startLon canonicalTable.sekki 2 > startLon canonicalTable.sekki 3 ∧
    ((startLon canonicalTable.sekki 2 ≤ 350 ∧ (350 : ℚ) < 360) ∨
     ((0 : ℚ) ≤ 350 ∧ (350 : ℚ) < startLon canonicalTable.sekki 3)) ∧
    ∃ s k idx, canonicalTable.sekki[2]? = some s ∧
      find_current_ko 350 canonicalTable = some (s, k, idx) ∧
      s.ko[idx.toNat]? = some k ∧
      0 ≤ offsetIn 350 (startLon canonicalTable.sekki 2)
        (startLon canonicalTable.sekki 3) :=
  ⟨by decide, by decide, by decide, by decide,
   find_current_ko_wraparound canonicalTable 350 2 (by decide) (by decide) (by decide)
     (by decide)⟩

/-- C5: at a longitude exactly equal to a term's start, that term is
selected (inclusive lower bound), and no other term matches. -/
theorem find_current_ko_inclusive_lower_bound (data : SekkiData) (i : ℕ)
    (hwf : WellFormed data) (hne : NoEmptyTerm data) (hi : i < 24) :
    matchCond (startLon data.sekki i) data.sekki i ∧
    (∀ j < 24, matchCond (startLon data.sekki i) data.sekki j → j = i) ∧
    ∃ s k idx, data.sekki[i]? = some s ∧
      find_current_ko (startLon data.sekki i) data = some (s, k, idx) ∧
      s.ko[idx.toNat]? = some k := by
  obtain ⟨w, hd⟩ := hwf.2.2.2
  have hbnd := hwf.2.2.1
  have hm : matchCond (startLon data.sekki i) data.sekki i := by
    by_cases hiw : i = w
    · subst hiw
      rw [matchCond_at_w _ _ hd]
      exact Or.inl le_rfl
    · have hle := hd.2.2 i hi hiw
      have hlt : startLon data.sekki i < startLon data.sekki (i + 1) :=
        lt_of_le_of_ne hle (hne i hi)
      unfold matchCond
      rw [if_neg (not_lt.mpr hle)]
      exact ⟨le_rfl, hlt⟩
  refine ⟨hm, ?_, ?_⟩
  · intro j hj hmj
    exact unique_match _ data.sekki hd j i hj hi hmj hm
  · obtain ⟨s, k, idx, hs, hf, hkk, _, _, _⟩ :=
      find_current_ko_resolves data _ hwf (hbnd i hi).1 hi hm
    exact ⟨s, k, idx, hs, hf, hkk⟩

theorem find_current_ko_inclusive_lower_bound_witness :
    WellFormed canonicalTable ∧ NoEmptyTerm canonicalTable ∧ (5 : ℕ) < 24 ∧
    (matchCond (startLon canonicalTable.sekki 5) canonicalTable.sekki 5 ∧
     (∀ j < 24, matchCond (startLon canonicalTable.sekki 5) canonicalTable.sekki j → j = 5) ∧
     ∃ s k idx, canonicalTable.sekki[5]? = some s ∧
       find_current_ko (startLon canonicalTable.sekki 5) canonicalTable = some (s, k, idx) ∧
       s.ko[idx.toNat]? = some k) :=
  ⟨by decide, by decide, by decide,
   find_current_ko_inclusive_lower_bound canonicalTable 5 (by decide) (by decide) (by decide)⟩

/-- C6: for a term with positive span and nonnegative offset, the returned
index is `min ⌊offset / (span/3)⌋ 2`, always at most 2, and for `k ∈ {0,1}`
the index equals `k` exactly when the offset lies in the `k`-th third. -/
theorem find_ko_in_sekki_index_formula (L : ℚ) (s : Sekki) (next_lon : ℚ)
    (hko : s.ko.length = 3)
    (hspan : 0 < spanIn s.longitude next_lon)
    (hoff : 0 ≤ offsetIn L s.longitude next_lon) :
    ∃ k idx, _find_ko_in_sekki L s next_lon = some (s, k, idx) ∧
      idx = min (⌊offsetIn L s.longitude next_lon / (spanIn s.longitude next_lon / 3)⌋) 2 ∧
      0 ≤ idx ∧ idx ≤ 2 ∧ s.ko[idx.toNat]? = some k ∧
      ∀ kk : ℤ, (kk = 0 ∨ kk = 1) →
        (idx = kk ↔
          (kk : ℚ) * (spanIn s.longitude next_lon / 3) ≤ offsetIn L s.longitude next_lon ∧
          offsetIn L s.longitude next_lon < ((kk : ℚ) + 1) * (spanIn s.longitude next_lon / 3)) := by
  obtain ⟨k, h1, h2, h3, h4⟩ := find_ko_in_sekki_some L s next_lon hko hspan hoff
  refine ⟨k, _, h1, rfl, h3, h4, h2, ?_⟩
  intro kk hkk
  have hks : 0 < spanIn s.longitude next_lon / 3 := by positivity
  have hq : 0 ≤ offsetIn L s.longitude next_lon / (spanIn s.longitude next_lon / 3) :=
    div_nonneg hoff hks.le
  have hfl0 : 0 ≤ ⌊offsetIn L s.longitude next_lon / (spanIn s.longitude next_lon / 3)⌋ :=
    Int.floor_nonneg.mpr hq
  constructor
  · intro hidxeq
    have hflkk : ⌊offsetIn L s.longitude next_lon / (spanIn s.longitude next_lon / 3)⌋ = kk := by
      rcases le_or_lt (⌊offsetIn L s.longitude next_lon / (spanIn s.longitude next_lon / 3)⌋) 2
        with h | h
      · rwa [min_eq_left h] at hidxeq
      · rw [min_eq_right h.le] at hidxeq
        omega
    obtain ⟨hle, hlt⟩ := Int.floor_eq_iff.mp hflkk
    constructor
    · exact (le_div_iff₀ hks).mp hle
    · have := (div_lt_iff₀ hks).mp hlt
      push_cast at this ⊢
      linarith
  · rintro ⟨hge, hlt⟩
    have h1' : (kk : ℚ) ≤ offsetIn L s.longitude next_lon / (spanIn s.longitude next_lon / 3) :=
      (le_div_iff₀ hks).mpr hge
    have h2' : offsetIn L s.longitude next_lon / (spanIn s.longitude next_lon / 3) <
        (kk : ℚ) + 1 := by
      rw [div_lt_iff₀ hks]
      push_cast
      linarith
    have hfl : ⌊offsetIn L s.longitude next_lon / (spanIn s.longitude next_lon / 3)⌋ = kk :=
      Int.floor_eq_iff.mpr ⟨h1', by push_cast; linarith⟩
    rw [hfl]
    rcases hkk with rfl | rfl <;> decide

theorem find_ko_in_sekki_index_formula_witness :
    (mkSekkiAt 315).ko.length = 3 ∧
    0 < spanIn (mkSekkiAt 315).longitude 330 ∧
    0 ≤ offsetIn 320 (mkSekkiAt 315).longitude 330 ∧
    ∃ k idx, _find_ko_in_sekki 320 (mkSekkiAt 315) 330 = some (mkSekkiAt 315, k, idx) ∧
      idx = min (⌊offsetIn 320 (mkSekkiAt 315).longitude 330 /
        (spanIn (mkSekkiAt 315).longitude 330 / 3)⌋) 2 ∧
      0 ≤ idx ∧ idx ≤ 2 ∧ (mkSekkiAt 315).ko[idx.toNat]? = some k ∧
      ∀ kk : ℤ, (kk = 0 ∨ kk = 1) →
        (idx = kk ↔
          (kk : ℚ) * (spanIn (mkSekkiAt 315).longitude 330 / 3) ≤
            offsetIn 320 (mkSekkiAt 315).longitude 330 ∧
          offsetIn 320 (mkSekkiAt 315).longitude 330 <
            ((kk : ℚ) + 1) * (spanIn (mkSekkiAt 315).longitude 330 / 3)) :=
  ⟨by decide, by norm_num [mkSekkiAt, spanIn], by norm_num [mkSekkiAt, offsetIn],
   find_ko_in_sekki_index_formula 320 (mkSekkiAt 315) 330 (by decide)
     (by norm_num [mkSekkiAt, spanIn]) (by norm_num [mkSekkiAt, offsetIn])⟩

/-- C7: `find_current_ko` applies no modulo-360 normalization.  For a
well-formed table whose wrapping pair ends at next start 0 (and whose
following term starts above 0), `find_current_ko 360` matches the wrapping
term with offset equal to the full span and index clamped to 2, while
`find_current_ko (360 mod 360) = find_current_ko 0` returns the following
term with index 0 — so `find_current_ko L ≠ find_current_ko (L mod 360)`
for the finite longitude `L = 360`. -/
theorem find_current_ko_no_normalization (data : SekkiData) (w : ℕ)
    (hwf : WellFormed data) (hw : w < 24)
    (hdesc : startLon data.sekki w > startLon data.sekki (w + 1))
    (hzero : startLon data.sekki (w + 1) = 0)
    (hpos : 0 < startLon data.sekki (w + 2)) :
    (∃ s k, data.sekki[w]? = some s ∧
       find_current_ko 360 data = some (s, k, 2) ∧ s.ko[(2 : ℕ)]? = some k) ∧
    offsetIn 360 (startLon data.sekki w) (startLon data.sekki (w + 1)) =
      spanIn (startLon data.sekki w) (startLon data.sekki (w + 1)) ∧
    (∃ s k, data.sekki[(w + 1) % 24]? = some s ∧
       find_current_ko (pymod 360 360) data = some (s, k, 0) ∧
       s.ko[(0 : ℕ)]? = some k) ∧
    find_current_ko 360 data ≠ find_current_ko (pymod 360 360) data := by
  obtain ⟨w', hd'⟩ := hwf.2.2.2
  have hww : w = w' := by
    by_contra hne
    exact absurd (hd'.2.2 w hw hne) (not_le.mpr hdesc)
  subst hww
  have hbnd := hwf.2.2.1
  have hsw360 : startLon data.sekki w < 360 := (hbnd w hw).2
  have hswpos : 0 < startLon data.sekki w := by
    rw [hzero] at hdesc
    exact hdesc
  -- the value of `pymod 360 360`
  have hpm : pymod (360 : ℚ) 360 = 0 := by
    unfold pymod
    rw [show (360 : ℚ) / 360 = 1 by norm_num, Int.floor_one]
    norm_num
  -- `360` matches only the wrapping term
  have hm360 : matchCond 360 data.sekki w := by
    rw [matchCond_at_w _ _ hd']
    exact Or.inl hsw360.le
  have hfirst360 : ∀ k, k < w → ¬ matchCond 360 data.sekki k := by
    intro k hk hmk
    have hk24 : k < 24 := by omega
    unfold matchCond at hmk
    rw [if_neg (not_lt.mpr (hd'.2.2 k hk24 (by omega)))] at hmk
    have hb := (hbnd ((k + 1) % 24) (Nat.mod_lt _ (by norm_num))).2
    rw [startLon_congr data.sekki (show (k + 1) % 24 % 24 = (k + 1) % 24 by omega)] at hb
    linarith [hmk.2]
  obtain ⟨s, k, idx, hs, hf, hkk, _, _, hidx⟩ :=
    find_current_ko_resolves data 360 hwf (by norm_num) hw hm360
  -- offset at 360 equals the whole span
  have hoffv : offsetIn 360 (startLon data.sekki w) (startLon data.sekki (w + 1)) =
      360 - startLon data.sekki w := by
    unfold offsetIn
    rw [if_pos hdesc, if_pos (le_of_lt hsw360)]
  have hspanv : spanIn (startLon data.sekki w) (startLon data.sekki (w + 1)) =
      360 - startLon data.sekki w := by
    unfold spanIn
    rw [if_pos hdesc, hzero, add_zero]
  have hoffspan : offsetIn 360 (startLon data.sekki w) (startLon data.sekki (w + 1)) =
      spanIn (startLon data.sekki w) (startLon data.sekki (w + 1)) := by
    rw [hoffv, hspanv]
  -- the clamped index at 360 is 2
  have hx : (360 : ℚ) - startLon data.sekki w ≠ 0 := by
    intro h
    rw [sub_eq_zero] at h
    exact absurd h.symm (ne_of_lt hsw360)
  have hratio : (360 - startLon data.sekki w) / ((360 - startLon data.sekki w) / 3) = 3 := by
    field_simp
  have hidx2 : idx = 2 := by
    rw [hidx, hoffv, hspanv, hratio,
      show ⌊(3 : ℚ)⌋ = 3 by rw [show (3 : ℚ) = ((3 : ℤ) : ℚ) by norm_num, Int.floor_intCast]]
    decide
  rw [hidx2] at hf hkk
  -- `0` matches only the term after the wrapping one
  have e1 : startLon data.sekki ((w + 1) % 24) = startLon data.sekki (w + 1) :=
    startLon_congr data.sekki (by omega)
  have e2 : startLon data.sekki ((w + 1) % 24 + 1) = startLon data.sekki (w + 2) :=
    startLon_congr data.sekki (by omega)
  have hw1 : (w + 1) % 24 < 24 := Nat.mod_lt _ (by norm_num)
  have hm0 : matchCond 0 data.sekki ((w + 1) % 24) := by
    unfold matchCond
    rw [e1, e2, hzero]
    rw [if_neg (not_lt.mpr hpos.le)]
    exact ⟨le_rfl, hpos⟩
  have hfirst0 : ∀ j, j < (w + 1) % 24 → ¬ matchCond 0 data.sekki j := by
    intro j hj hmj
    have := unique_match 0 data.sekki hd' j ((w + 1) % 24) (by omega) hw1 hmj hm0
    omega
  obtain ⟨s0, k0, idx0, hs0, hf0, hkk0, _, _, hidx0⟩ :=
    find_current_ko_resolves data 0 hwf le_rfl hw1 hm0
  have hoff0 : offsetIn 0 (startLon data.sekki ((w + 1) % 24))
      (startLon data.sekki ((w + 1) % 24 + 1)) = 0 := by
    unfold offsetIn
    rw [e1, e2, hzero]
    rw [if_neg (not_lt.mpr hpos.le)]
    norm_num
  have hidx00 : idx0 = 0 := by
    rw [hidx0, hoff0, zero_div, Int.floor_zero]
    decide
  rw [hidx00] at hf0 hkk0
  rw [hpm]
  refine ⟨⟨s, k, hs, hf, hkk⟩, hoffspan, ⟨s0, k0, hs0, hf0, hkk0⟩, ?_⟩
  rw [hf, hf0]
  rintro h
  rw [Option.some.injEq] at h
  have h2 := congrArg (fun r => r.2.2) h
  norm_num at h2

theorem find_current_ko_no_normalization_witness :
    WellFormed canonicalTable ∧ (2 : ℕ) < 24 ∧
    startLon canonicalTable.sekki 2 > startLon canonicalTable.sekki 3 ∧
    startLon canonicalTable.sekki 3 = 0 ∧
    0 < startLon canonicalTable.sekki 4 ∧
    ((∃ s k, canonicalTable.sekki[2]? = some s ∧
        find_current_ko 360 canonicalTable = some (s, k, 2) ∧ s.ko[(2 : ℕ)]? = some k) ∧
     offsetIn 360 (startLon canonicalTable.sekki 2) (startLon canonicalTable.sekki 3) =
       spanIn (startLon canonicalTable.sekki 2) (startLon canonicalTable.sekki 3) ∧
     (∃ s k, canonicalTable.sekki[3 % 24]? = some s ∧
        find_current_ko (pymod 360 360) canonicalTable = some (s, k, 0) ∧
        s.ko[(0 : ℕ)]? = some k) ∧
     find_current_ko 360 canonicalTable ≠ find_current_ko (pymod 360 360) canonicalTable) :=
  ⟨by decide, by decide, by decide, by decide, by decide,
   find_current_ko_no_normalization canonicalTable 2 (by decide) (by decide) (by decide)
     (by decide) (by decide)⟩

/-- C8: under the nonnegativity precondition resolution always succeeds with
an index in `{0,1,2}`; but for the finite negative longitude `-100` on the
canonical well-formed table the computed index falls below `-3`, the
micro-season lookup raises `IndexError`, and `find_current_ko` fails. -/
theorem find_current_ko_inbounds_and_negative_failure :
    (∀ (data : SekkiData) (L : ℚ), WellFormed data → 0 ≤ L →
      ∃ s k idx, find_current_ko L data = some (s, k, idx) ∧
        0 ≤ idx ∧ idx ≤ 2 ∧ s.ko[idx.toNat]? = some k) ∧
    (WellFormed canonicalTable ∧ (-100 : ℚ) < 0 ∧
      find_current_ko (-100) canonicalTable = none) := by
  constructor
  · intro data L hwf hL
    obtain ⟨w, hd⟩ := hwf.2.2.2
    obtain ⟨i, hi, hm⟩ := exists_match L data.sekki hd
    obtain ⟨s, k, idx, _, hf, hkk, hi0, hi2, _⟩ :=
      find_current_ko_resolves data L hwf hL hi hm
    exact ⟨s, k, idx, hf, hi0, hi2, hkk⟩
  · refine ⟨by decide, by decide, ?_⟩
    have hceil : ⌈(-17 : ℚ)⌉ = -17 := by
      rw [show ((-17 : ℚ)) = ((-17 : ℤ) : ℚ) by norm_num, Int.ceil_intCast]
    have hmin : min (-17 : ℤ) 2 = -17 := by decide
    have hlen : canonicalTable.sekki.length = 24 := by decide
    have hm : matchCond (-100) canonicalTable.sekki 2 := by decide
    have hfirst : ∀ k, k < 2 → ¬ matchCond (-100) canonicalTable.sekki k := by decide
    have heq := find_current_ko_eq (-100) canonicalTable hlen (by norm_num) hm hfirst
    have h2l : 2 < canonicalTable.sekki.length := by omega
    have hsome : canonicalTable.sekki[2]? = some (mkSekkiAt 345) := by decide
    have hval : canonicalTable.sekki[2] = mkSekkiAt 345 := by
      have hg := List.getElem?_eq_getElem h2l
      rw [hsome] at hg
      exact (Option.some.inj hg).symm
    have hstart3 : startLon canonicalTable.sekki 3 = 0 := by decide
    rw [heq, hval, hstart3]
    have hsp : spanIn (345 : ℚ) 0 = 15 := by norm_num [spanIn]
    have hof : offsetIn (-100) (345 : ℚ) 0 = -85 := by norm_num [offsetIn]
    norm_num [_find_ko_in_sekki, mkSekkiAt, mkKo, hsp, hof, pyInt, pyGet, hceil, hmin]

theorem find_current_ko_inbounds_witness :
    ∃ s k idx, find_current_ko 5 canonicalTable = some (s, k, idx) ∧
      0 ≤ idx ∧ idx ≤ 2 ∧ s.ko[idx.toNat]? = some k :=
  find_current_ko_inbounds_and_negative_failure.1 canonicalTable 5 (by decide) (by decide)

/-- C2 (code behaviour at the spec's failing input): on a malformed table
where no term's range condition holds, `find_current_ko` does not raise — it
silently returns the first term, its first micro-season and index 0
(src/main.py:67), contradicting the spec's required `ResolutionError`. -/
theorem find_current_ko_no_match_falls_back_to_first :
    (∀ i < 24, ¬ matchCond 100 degenerateTable.sekki i) ∧
    find_current_ko 100 degenerateTable = some (mkSekkiAt 0, mkKo 0, 0) := by
  constructor
  · decide
  · decide

/-- C3 (code behaviour): `load_sekki_data` performs no structural validation;
a 23-term table, and a 24-term table whose first term has only 2
micro-seasons, are both returned unchanged instead of failing. -/
theorem load_sekki_data_no_validation :
    load_sekki_data (some shortTable) = some shortTable ∧
    shortTable.sekki.length = 23 ∧
    load_sekki_data (some badKoTable) = some badKoTable ∧
    badKoTable.sekki.length = 24 ∧
    badKoSekki ∈ badKoTable.sekki ∧ badKoSekki.ko.length = 2 := by
  refine ⟨rfl, by decide, rfl, by decide, by decide, by decide⟩

theorem string_append_assoc (a b c : String) : a ++ b ++ c = a ++ (b ++ c) := by
  rcases a with ⟨da⟩
  rcases b with ⟨db⟩
  rcases c with ⟨dc⟩
  exact congrArg String.mk (List.append_assoc da db dc)

/-- C9: the formatted message contains, verbatim as substrings, the date
string, the term name, the micro-season name, reading and emoji, and the
positional phase label for the index (初候/次候/末候 = first/middle/last). -/
theorem format_message_contains_fields (date : PyDate) (sekki : Sekki) (ko : Ko)
    (idx : ℤ) (h0 : 0 ≤ idx) (h2 : idx ≤ 2) :
    ∃ msg lbl, format_message date sekki ko idx = some msg ∧
      pyGet ko_names idx = some lbl ∧
      isSubstr (strftime_ymd date) msg ∧ isSubstr sekki.name msg ∧
      isSubstr ko.name msg ∧ isSubstr ko.reading msg ∧ isSubstr ko.emoji msg ∧
      isSubstr lbl msg ∧
      (idx = 0 → lbl = "初候") ∧ (idx = 1 → lbl = "次候") ∧ (idx = 2 → lbl = "末候") := by
  have hidx : idx = 0 ∨ idx = 1 ∨ idx = 2 := by omega
  have hlbl : ∃ lbl, pyGet ko_names idx = some lbl ∧
      (idx = 0 → lbl = "初候") ∧ (idx = 1 → lbl = "次候") ∧ (idx = 2 → lbl = "末候") := by
    rcases hidx with rfl | rfl | rfl
    · exact ⟨"初候", by decide, by decide, by decide, by decide⟩
    · exact ⟨"次候", by decide, by decide, by decide, by decide⟩
    · exact ⟨"末候", by decide, by decide, by decide, by decide⟩
  obtain ⟨lbl, hpg, hl0, hl1, hl2⟩ := hlbl
  refine ⟨"*" ++ strftime_ymd date ++ " dev-daily* " ++ ko.emoji ++ "\n> " ++ sekki.name ++
      "・" ++ lbl ++ "「" ++ ko.name ++ "」（" ++ ko.reading ++ "）", lbl, ?_, hpg,
      ?_, ?_, ?_, ?_, ?_, ?_, hl0, hl1, hl2⟩
  · unfold format_message
    rw [hpg]
  · exact ⟨"*", " dev-daily* " ++ ko.emoji ++ "\n> " ++ sekki.name ++ "・" ++ lbl ++ "「" ++
      ko.name ++ "」（" ++ ko.reading ++ "）", by simp only [string_append_assoc]⟩
  · exact ⟨"*" ++ strftime_ymd date ++ " dev-daily* " ++ ko.emoji ++ "\n> ",
      "・" ++ lbl ++ "「" ++ ko.name ++ "」（" ++ ko.reading ++ "）",
      by simp only [string_append_assoc]⟩
  · exact ⟨"*" ++ strftime_ymd date ++ " dev-daily* " ++ ko.emoji ++ "\n> " ++ sekki.name ++
      "・" ++ lbl ++ "「", "」（" ++ ko.reading ++ "）", by simp only [string_append_assoc]⟩
  · exact ⟨"*" ++ strftime_ymd date ++ " dev-daily* " ++ ko.emoji ++ "\n> " ++ sekki.name ++
      "・" ++ lbl ++ "「" ++ ko.name ++ "」（", "）", by simp only [string_append_assoc]⟩
  · exact ⟨"*" ++ strftime_ymd date ++ " dev-daily* ",
      "\n> " ++ sekki.name ++ "・" ++ lbl ++ "「" ++ ko.name ++ "」（" ++ ko.reading ++ "）",
      by simp only [string_append_assoc]⟩
  · exact ⟨"*" ++ strftime_ymd date ++ " dev-daily* " ++ ko.emoji ++ "\n> " ++ sekki.name ++
      "・", "「" ++ ko.name ++ "」（" ++ ko.reading ++ "）",
      by simp only [string_append_assoc]⟩

theorem format_message_contains_fields_witness :
    (0 : ℤ) ≤ 1 ∧ (1 : ℤ) ≤ 2 ∧
    ∃ msg lbl, format_message ⟨2026, 2, 4⟩ (mkSekkiAt 315) (mkKo 1) 1 = some msg ∧
      pyGet ko_names 1 = some lbl ∧
      isSubstr (strftime_ymd ⟨2026, 2, 4⟩) msg ∧ isSubstr (mkSekkiAt 315).name msg ∧
      isSubstr (mkKo 1).name msg ∧ isSubstr (mkKo 1).reading msg ∧
      isSubstr (mkKo 1).emoji msg ∧ isSubstr lbl msg ∧
      ((1 : ℤ) = 0 → lbl = "初候") ∧ ((1 : ℤ) = 1 → lbl = "次候") ∧
      ((1 : ℤ) = 2 → lbl = "末候") :=
  ⟨by decide, by decide,
   format_message_contains_fields ⟨2026, 2, 4⟩ (mkSekkiAt 315) (mkKo 1) 1
     (by decide) (by decide)⟩

/-- C10: `post_to_slack` never propagates a transport exception (every
exception becomes `false`) and returns `true` exactly when the HTTP status
code is 200. -/
theorem post_to_slack_success_iff_200 :
    ∀ o : PostOutcome, post_to_slack o = true ↔ o = PostOutcome.response 200 := by
  intro o
  cases o with
  | response code => simp [post_to_slack]
  | exception m => simp [post_to_slack]

theorem post_to_slack_success_iff_200_witness :
    post_to_slack (PostOutcome.response 200) = true ∧
    post_to_slack (PostOutcome.response 201) = false ∧
    post_to_slack (PostOutcome.exception "connection reset") = false :=
  ⟨(post_to_slack_success_iff_200 (PostOutcome.response 200)).mpr rfl,
   by
    have h := post_to_slack_success_iff_200 (PostOutcome.response 201)
    rcases hb : post_to_slack (PostOutcome.response 201) with _ | _
    · rfl
    · exact absurd (h.mp hb) (by decide),
   by
    have h := post_to_slack_success_iff_200 (PostOutcome.exception "connection reset")
    rcases hb : post_to_slack (PostOutcome.exception "connection reset") with _ | _
    · rfl
    · exact absurd (h.mp hb) (by decide)⟩
